import Mathlib

/-!
Verification of the spectrum-view spectrogram core (src/spectrum-view.py).

The embedding models the `VesnaSpectrumPlot` class: its constructor
(`initState`) and its `callback` method, together with the pieces of
`numpy` / `scipy` that `callback` actually exercises:

* RSSI values are modelled as `FQ := Option ℚ`: `some q` is a finite float
  of exact value `q`, `none` is a non-finite float (NaN).  NaN is absorbing
  for the arithmetic used here, as in IEEE floats; all machine arithmetic in
  the program stays well inside double range, so exact rationals are faithful
  for the finite case.
* `scipy.interpolate.interp1d(x1, data, kind='cubic')` is modelled as the
  construction of a cubic interpolating spline through the knots `x1` with
  values `data` (natural cubic spline over the uniformly spaced knot vector
  `x1 = linspace(start, end, nsteps)`, the only knot vector this program ever
  passes), failing like scipy when the lengths differ or fewer than 4 points
  are supplied.
* `numpy.roll(A, -256)` on the 256×256 array is the row-major flat rotation
  by 256 positions (`npRoll`).

`callback` returns the updated object state together with the Python result:
`.ok true` / `.ok false` for `return True` / `return False`, and `.error e`
for an exception escaping the method.
-/

set_option maxHeartbeats 1000000
set_option maxRecDepth 10000

attribute [local semireducible] Rat.add Rat.sub Rat.mul Rat.inv

deriving instance DecidableEq for Except

/-- A floating-point RSSI value: `some q` is a finite float with exact value
`q`; `none` is a non-finite value (NaN), absorbing for arithmetic. -/
abbrev FQ := Option ℚ

/-- Float addition, NaN-absorbing. -/
def fadd : FQ → FQ → FQ
  | some x, some y => some (x + y)
  | _, _ => none

/-- Float subtraction, NaN-absorbing. -/
def fsub : FQ → FQ → FQ
  | some x, some y => some (x - y)
  | _, _ => none

/-- Multiplication by a finite scalar, NaN-absorbing. -/
def fsmul (q : ℚ) : FQ → FQ
  | some x => some (q * x)
  | none => none

/-- Division by a finite (nonzero in every use below) scalar, NaN-absorbing. -/
def fdivq : FQ → ℚ → FQ
  | some x, q => some (x / q)
  | none, _ => none

/-- `numpy.linspace a b n`: `n` evenly spaced points from `a` to `b`
inclusive. -/
def linspace (a b : ℚ) (n : ℕ) : List ℚ :=
  (List.range n).map (fun i : ℕ => a + (b - a) * (i : ℚ) / ((n : ℚ) - 1))

/-- Round-half-to-even, the rounding applied to `(end_freq - start_freq)/step`
on line 26 of spectrum-view.py. -/
def pyRound (q : ℚ) : ℤ :=
  if Int.fract q < 1 / 2 then ⌊q⌋
  else if 1 / 2 < Int.fract q then ⌊q⌋ + 1
  else if ⌊q⌋ % 2 = 0 then ⌊q⌋ else ⌊q⌋ + 1

/-- `nsteps = round((end_freq - start_freq)/step)+1` (spectrum-view.py,
line 26). -/
def numSteps (startFreq endFreq step : ℚ) : ℕ :=
  (pyRound ((endFreq - startFreq) / step) + 1).toNat

/-- Right-hand sides `3*(y_{i-1} - 2*y_i + y_{i+1})/h^2` of the
natural-cubic-spline tridiagonal system, one per interior knot: the system
`scipy.interpolate.interp1d(kind='cubic')` solves when it builds the spline. -/
def splineRhs (h : ℚ) : List FQ → List FQ
  | y0 :: y1 :: y2 :: rest =>
      fdivq (fsmul 3 (fadd (fsub y0 (fsmul 2 y1)) y2)) (h * h) ::
        splineRhs h (y1 :: y2 :: rest)
  | _ => []

/-- Forward elimination of the Thomas algorithm on the `(1,4,1)` tridiagonal
system; every division is by a data-independent nonzero rational. -/
def thomasFwd : ℚ → FQ → List FQ → List (ℚ × FQ)
  | _, _, [] => []
  | cp, dp, r :: rest =>
      let denom := 4 - cp
      let cpn := 1 / denom
      let dpn := fdivq (fsub r dp) denom
      (cpn, dpn) :: thomasFwd cpn dpn rest

/-- Back substitution of the Thomas algorithm; the first component carries the
already computed next unknown (`0` beyond the last interior knot). -/
def thomasBwdGo : List (ℚ × FQ) → FQ × List FQ
  | [] => (some 0, [])
  | p :: rest =>
      let acc := thomasBwdGo rest
      let c := fsub p.2 (fsmul p.1 acc.1)
      (c, c :: acc.2)

/-- Back substitution of the Thomas algorithm. -/
def thomasBwd (l : List (ℚ × FQ)) : List FQ :=
  (thomasBwdGo l).2

/-- Second-derivative coefficients `c_0 .. c_{n-1}` of the natural cubic
spline (`c_0 = c_{n-1} = 0`). -/
def splineC (h : ℚ) (ys : List FQ) : List FQ :=
  (some 0 : FQ) :: (thomasBwd (thomasFwd 0 (some 0) (splineRhs h ys)) ++ [(some 0 : FQ)])

/-- Knot spacing of the uniform knot vector `linspace a b n`. -/
def splineH (a b : ℚ) (n : ℕ) : ℚ :=
  (b - a) / ((n : ℚ) - 1)

/-- Index of the spline interval used for the query point `t`: the knot
interval containing `t`, clamped to `[0, n-2]`. -/
def splineIdx (a b : ℚ) (n : ℕ) (t : ℚ) : ℕ :=
  min (n - 2) (Int.toNat ⌊(t - a) / splineH a b n⌋)

/-- First-derivative coefficient of the cubic piece on one interval. -/
def splineB (h : ℚ) (yi yi1 ci ci1 : FQ) : FQ :=
  fsub (fdivq (fsub yi1 yi) h) (fsmul (h / 3) (fadd (fsmul 2 ci) ci1))

/-- Third-derivative coefficient of the cubic piece on one interval. -/
def splineD (h : ℚ) (ci ci1 : FQ) : FQ :=
  fdivq (fsub ci1 ci) (3 * h)

/-- Value of the cubic piece `y + b*dt + c*dt^2 + d*dt^3`. -/
def splineCombine (yi bi ci di : FQ) (dt : ℚ) : FQ :=
  fadd (fadd (fadd yi (fsmul dt bi)) (fsmul (dt * dt) ci)) (fsmul (dt * dt * dt) di)

/-- Evaluate the cubic interpolating spline through the `n` uniformly spaced
knots `linspace a b n` with values `ys` at the point `t`. -/
def splineEval (a b : ℚ) (n : ℕ) (ys : List FQ) (t : ℚ) : FQ :=
  let h := splineH a b n
  let cs := splineC h ys
  let i := splineIdx a b n t
  splineCombine (ys.getD i none)
    (splineB h (ys.getD i none) (ys.getD (i + 1) none) (cs.getD i none) (cs.getD (i + 1) none))
    (cs.getD i none)
    (splineD h (cs.getD i none) (cs.getD (i + 1) none))
    (t - (a + (i : ℚ) * h))

/-- The interpolating-function object cached in `self.interpolator`:
`scipy.interpolate.interp1d(x1, data, kind='cubic')`, specialised to the
uniformly spaced knot vector `x1 = linspace lo hi npts` (the only knot vector
this program ever passes). -/
structure Interp where
  lo : ℚ
  hi : ℚ
  npts : ℕ
  ys : List FQ
deriving DecidableEq

/-- `interp1d(x, y, kind='cubic')`: raises `ValueError` when the lengths
differ, or when fewer than 4 points are supplied for a cubic fit; otherwise
returns the spline object. -/
def interp1d (x : List ℚ) (y : List FQ) : Except String Interp :=
  if y.length ≠ x.length then
    .error "x and y arrays must be equal in length along interpolation axis"
  else if x.length < 4 then
    .error "x and y arrays must have at least 4 entries"
  else
    .ok ⟨x.headD 0, x.getLastD 0, x.length, y⟩

/-- Evaluate a cached interpolator at one point. -/
def evalInterp (f : Interp) (t : ℚ) : FQ :=
  splineEval f.lo f.hi f.npts f.ys t

/-- The state of a `VesnaSpectrumPlot` object visible to `callback`: the two
axes `x1`, `x2`, the spectrogram array `A`, the row cursor `line`, and the
cached interpolator.  The figure/canvas objects are display-adapter plumbing
with no feedback into this state. -/
structure PState where
  startFreq : ℚ
  endFreq : ℚ
  x1 : List ℚ
  x2 : List ℚ
  A : List (List FQ)
  line : ℕ
  interpolator : Option Interp
deriving DecidableEq

/-- One all\x2dsentinel row of the freshly allocated buffer. -/
def sentinelRow : List FQ :=
  List.replicate 256 (some (-100))

/-- `VesnaSpectrumPlot.__init__(start_freq, end_freq, step)`: the fields of
the object as `callback` will observe them.  (The constructor first fills `A`
with a color-scale ramp for the image object and then overwrites it with
`zeros(shape=(256,256))-100`; only the final value is observable.) -/
def initState (startFreq endFreq step : ℚ) : PState :=
  { startFreq := startFreq
    endFreq := endFreq
    x1 := linspace startFreq endFreq (numSteps startFreq endFreq step)
    x2 := linspace startFreq endFreq 256
    A := List.replicate 256 sentinelRow
    line := 0
    interpolator := none }

/-- Split a flat list into `rows` rows of 256 entries
(`numpy` reshape to shape `(rows, 256)`). -/
def chunkRows : ℕ → List FQ → List (List FQ)
  | 0, _ => []
  | r + 1, l => l.take 256 :: chunkRows r (l.drop 256)

/-- `numpy.roll(A, -256)` on a 256×256 array: rotate the row-major flattening
left by 256 positions and reshape back to 256 rows. -/
def npRoll (A : List (List FQ)) : List (List FQ) :=
  chunkRows 256 (A.flatten.rotate 256)

/-- The interpolator object `callback` builds in state `s` for sweep data
`w`: `interp1d(self.x1, sweep.data, kind='cubic')`. -/
def mkItp (s : PState) (w : List FQ) : Interp :=
  ⟨s.x1.headD 0, s.x1.getLastD 0, s.x1.length, w⟩

/-- The resampled row `callback` computes in state `s` for sweep data `w`:
`self.interpolator(self.x2)`. -/
def rowOf (s : PState) (w : List FQ) : List FQ :=
  s.x2.map (evalInterp (mkItp s w))

/-- `VesnaSpectrumPlot.callback(sweep_config, sweep)` (lines 55-85 of
spectrum-view.py).  Returns the updated object state and the Python result:
`.ok true` for `return True`, `.ok false` for `return False`, `.error e` for
an exception escaping the method (in which case no field was assigned). -/
def callback (s : PState) (sweep : List FQ) : PState × Except String Bool :=
  match interp1d s.x1 sweep with
  | .error e => (s, .error e)
  | .ok itp =>
      let s1 : PState := { s with interpolator := some itp }
      if sweep.length < 256 then
        let data := s1.x2.map (evalInterp itp)
        let A1 := s1.A.set s1.line data
        if 254 < s1.line then
          ({ s1 with A := npRoll A1 }, .ok true)
        else
          ({ s1 with A := A1, line := s1.line + 1 }, .ok true)
      else
        (s1, .ok false)

/-- Feed a list of sweeps through `callback` in order, as the acquisition
loop `spectrumsensor.run` does; an escaping exception aborts the run. -/
def runSweeps (s : PState) : List (List FQ) → Except String PState
  | [] => .ok s
  | w :: ws =>
      match callback s w with
      | (s1, .ok _) => runSweeps s1 ws
      | (_, .error e) => .error e

/-- Row cursor of a finished run (`0` for an aborted run). -/
def lineOf (r : Except String PState) : ℕ :=
  match r with
  | .ok s => s.line
  | .error _ => 0

/-- Buffer contents of a finished run (`[]` for an aborted run). -/
def rowsOf (r : Except String PState) : List (List FQ) :=
  match r with
  | .ok s => s.A
  | .error _ => []

/-- Did the run finish without an escaping exception? -/
def isOkRun (r : Except String PState) : Bool :=
  match r with
  | .ok _ => true
  | .error _ => false

/-- A sweep the core fully processes in state `s`: length matching the
configured source axis (else `interp1d` raises), at least 4 points (else the
cubic fit raises), and fewer than 256 points (else the update is skipped). -/
def GoodSweep (s : PState) (w : List FQ) : Prop :=
  w.length = s.x1.length ∧ 4 ≤ w.length ∧ w.length < 256

instance (s : PState) (w : List FQ) : Decidable (GoodSweep s w) := by
  unfold GoodSweep; infer_instance

/-- Every sweep of the list is fully processed from state `s`. -/
def AllGood (s : PState) (ws : List (List FQ)) : Prop :=
  ∀ w ∈ ws, GoodSweep s w

instance (s : PState) (ws : List (List FQ)) : Decidable (AllGood s ws) := by
  unfold AllGood; infer_instance

/-- A is a dense 256×256 array. -/
def WellShaped (A : List (List FQ)) : Prop :=
  A.length = 256 ∧ ∀ r ∈ A, r.length = 256

instance (A : List (List FQ)) : Decidable (WellShaped A) := by
  unfold WellShaped; infer_instance

/-- The buffer contents predicted after feeding the valid sweeps `ws` into a
fresh buffer whose configuration is that of `s`: while filling (at most 255
sweeps) the rows arrive in order above the sentinel rows; from the 256th sweep
on, rows `0..254` hold the last 255 sweeps in time order and row `255` holds
the sweep before them (the cyclic leftover of the wrap). -/
def expectedA (s : PState) (ws : List (List FQ)) : List (List FQ) :=
  if ws.length ≤ 255 then
    ws.map (rowOf s) ++ List.replicate (256 - ws.length) sentinelRow
  else
    ((ws.drop (ws.length - 255)).map (rowOf s)) ++ [rowOf s (ws.getD (ws.length - 256) [])]

/-! ### Basic facts about the float arithmetic -/

@[simp] theorem fadd_some (x y : ℚ) : fadd (some x) (some y) = some (x + y) := rfl

@[simp] theorem fsub_some (x y : ℚ) : fsub (some x) (some y) = some (x - y) := rfl

@[simp] theorem fsmul_some (q x : ℚ) : fsmul q (some x) = some (q * x) := rfl

@[simp] theorem fdivq_some (x q : ℚ) : fdivq (some x) q = some (x / q) := rfl

/-! ### Facts about `linspace` -/

@[simp] theorem linspace_length (a b : ℚ) (n : ℕ) : (linspace a b n).length = n := by
  simp only [linspace, List.length_map, List.length_range]

theorem linspace_getD (a b : ℚ) (n : ℕ) (i : ℕ) (hi : i < n) :
    (linspace a b n).getD i 0 = a + (b - a) * i / ((n : ℚ) - 1) := by
  simp only [linspace, List.getD_eq_getElem?_getD, List.getElem?_map, List.getElem?_range hi]
  rfl

theorem linspace_getD_zero (a b : ℚ) (n : ℕ) (hn : 0 < n) :
    (linspace a b n).getD 0 0 = a := by
  rw [linspace_getD a b n 0 hn]
  push_cast
  ring

theorem headD_eq_getD_zero {α : Type} (l : List α) (d : α) : l.headD d = l.getD 0 d := by
  cases l <;> rfl

theorem getLastD_eq_getD {α : Type} (l : List α) (d : α) :
    l.getLastD d = l.getD (l.length - 1) d := by
  rw [List.getLastD_eq_getLast?, List.getLast?_eq_getElem?, List.getD_eq_getElem?_getD]

theorem linspace_headD (a b : ℚ) (n : ℕ) (hn : 0 < n) : (linspace a b n).headD 0 = a := by
  rw [headD_eq_getD_zero, linspace_getD_zero a b n hn]

theorem linspace_getLastD (a b : ℚ) (n : ℕ) (hn : 2 ≤ n) :
    (linspace a b n).getLastD 0 = b := by
  rw [getLastD_eq_getD, linspace_length, linspace_getD a b n (n - 1) (by omega)]
  have h1 : ((n - 1 : ℕ) : ℚ) = (n : ℚ) - 1 := by
    push_cast [Nat.cast_sub (by omega : 1 ≤ n)]
    ring
  rw [h1]
  have h2 : (n : ℚ) - 1 ≠ 0 := by
    have : (2 : ℚ) ≤ (n : ℚ) := by exact_mod_cast hn
    intro h
    nlinarith
  field_simp

/-! ### `getD` helpers -/

theorem getD_map_fn (f : ℚ → FQ) (l : List ℚ) (i : ℕ) (hi : i < l.length) (d : FQ) :
    (l.map f).getD i d = f (l.getD i 0) := by
  simp only [List.getD_eq_getElem?_getD, List.getElem?_map]
  rw [List.getElem?_eq_getElem hi]
  simp

theorem getD_map_some (zs : List ℚ) (i : ℕ) (hi : i < zs.length) :
    (zs.map some).getD i none = some (zs.getD i 0) := by
  simp only [List.getD_eq_getElem?_getD, List.getElem?_map]
  rw [List.getElem?_eq_getElem hi]
  simp

theorem getD_isSome (l : List FQ) (i : ℕ) (hall : ∀ x ∈ l, x.isSome) (hi : i < l.length) :
    (l.getD i none).isSome := by
  rw [List.getD_eq_getElem?_getD, List.getElem?_eq_getElem hi]
  exact hall _ (l.getElem_mem hi)

theorem getD_eq_some (l : List FQ) (i : ℕ) (hall : ∀ x ∈ l, x.isSome) (hi : i < l.length) :
    ∃ v : ℚ, l.getD i none = some v := by
  have h := getD_isSome l i hall hi
  exact Option.isSome_iff_exists.mp h

/-! ### Structure of the spline coefficients -/

theorem splineRhs_length (h : ℚ) : ∀ ys : List FQ, (splineRhs h ys).length = ys.length - 2 := by
  intro ys
  induction ys with
  | nil => rfl
  | cons y0 t ih =>
      cases t with
      | nil => rfl
      | cons y1 u =>
          cases u with
          | nil => rfl
          | cons y2 rest =>
              simp only [splineRhs, List.length_cons] at ih ⊢
              omega

theorem splineRhs_allSome (h : ℚ) :
    ∀ ys : List FQ, (∀ y ∈ ys, y.isSome) → ∀ r ∈ splineRhs h ys, r.isSome := by
  intro ys
  induction ys with
  | nil => intro _ r hr; simp [splineRhs] at hr
  | cons y0 t ih =>
      intro hall r hr
      cases t with
      | nil => simp [splineRhs] at hr
      | cons y1 u =>
          cases u with
          | nil => simp [splineRhs] at hr
          | cons y2 rest =>
              simp only [splineRhs, List.mem_cons] at hr
              rcases hr with hr | hr
              · obtain ⟨v0, h0⟩ := Option.isSome_iff_exists.mp (hall y0 (by simp))
                obtain ⟨v1, h1⟩ := Option.isSome_iff_exists.mp (hall y1 (by simp))
                obtain ⟨v2, h2⟩ := Option.isSome_iff_exists.mp (hall y2 (by simp))
                subst hr
                simp [h0, h1, h2]
              · exact ih (fun y hy => hall y (List.mem_cons_of_mem _ hy)) r hr

theorem thomasFwd_length :
    ∀ (rs : List FQ) (cp : ℚ) (dp : FQ), (thomasFwd cp dp rs).length = rs.length := by
  intro rs
  induction rs with
  | nil => intro cp dp; rfl
  | cons r rest ih =>
      intro cp dp
      simp only [thomasFwd, List.length_cons, ih]

theorem thomasFwd_allSome :
    ∀ (rs : List FQ) (cp : ℚ) (dp : FQ), dp.isSome → (∀ r ∈ rs, r.isSome) →
      ∀ p ∈ thomasFwd cp dp rs, (p.2).isSome := by
  intro rs
  induction rs with
  | nil => intro cp dp _ _ p hp; simp [thomasFwd] at hp
  | cons r rest ih =>
      intro cp dp hdp hall p hp
      obtain ⟨v, hv⟩ := Option.isSome_iff_exists.mp hdp
      obtain ⟨w, hw⟩ := Option.isSome_iff_exists.mp (hall r (by simp))
      simp only [thomasFwd, List.mem_cons] at hp
      rcases hp with hp | hp
      · subst hp; simp [hv, hw]
      · exact ih _ _ (by simp [hv, hw]) (fun x hx => hall x (List.mem_cons_of_mem _ hx)) p hp

theorem thomasBwdGo_length : ∀ l : List (ℚ × FQ), (thomasBwdGo l).2.length = l.length := by
  intro l
  induction l with
  | nil => rfl
  | cons p rest ih => simp only [thomasBwdGo, List.length_cons, ih]

theorem thomasBwdGo_allSome :
    ∀ l : List (ℚ × FQ), (∀ p ∈ l, (p.2).isSome) →
      (thomasBwdGo l).1.isSome ∧ ∀ x ∈ (thomasBwdGo l).2, x.isSome := by
  intro l
  induction l with
  | nil => intro _; exact ⟨rfl, by intro x hx; simp [thomasBwdGo] at hx⟩
  | cons p rest ih =>
      intro hall
      obtain ⟨ihf, ihs⟩ := ih (fun q hq => hall q (List.mem_cons_of_mem _ hq))
      obtain ⟨v, hv⟩ := Option.isSome_iff_exists.mp ihf
      obtain ⟨w, hw⟩ := Option.isSome_iff_exists.mp (hall p (by simp))
      constructor
      · simp [thomasBwdGo, hv, hw]
      · intro x hx
        simp only [thomasBwdGo, List.mem_cons] at hx
        rcases hx with hx | hx
        · subst hx; simp [hv, hw]
        · exact ihs x hx

theorem splineC_length (h : ℚ) (ys : List FQ) (hn : 2 ≤ ys.length) :
    (splineC h ys).length = ys.length := by
  rw [splineC, List.length_cons, List.length_append, thomasBwd, thomasBwdGo_length,
    thomasFwd_length, splineRhs_length, List.length_singleton]
  omega

theorem splineC_allSome (h : ℚ) (ys : List FQ) (hall : ∀ y ∈ ys, y.isSome) :
    ∀ c ∈ splineC h ys, c.isSome := by
  intro c hc
  simp only [splineC, List.mem_cons, List.mem_append, List.mem_singleton,
    List.not_mem_nil, or_false] at hc
  rcases hc with hc | hc | hc
  · subst hc; rfl
  · have hfwd := thomasFwd_allSome (splineRhs h ys) 0 (some 0) rfl (splineRhs_allSome h ys hall)
    exact (thomasBwdGo_allSome _ hfwd).2 c hc
  · subst hc; rfl

theorem splineC_getD_zero (h : ℚ) (ys : List FQ) : (splineC h ys).getD 0 none = some 0 := rfl

/-! ### Endpoint behaviour of the spline -/

theorem nat_cast_sub_one (n : ℕ) (hn : 1 ≤ n) : ((n - 1 : ℕ) : ℚ) = (n : ℚ) - 1 := by
  push_cast [Nat.cast_sub hn]
  ring

theorem splineH_ne_zero (a b : ℚ) (n : ℕ) (hab : a < b) (hn : 2 ≤ n) :
    splineH a b n ≠ 0 := by
  have h1 : (n : ℚ) - 1 ≠ 0 := by
    have : (2 : ℚ) ≤ (n : ℚ) := by exact_mod_cast hn
    intro h; nlinarith
  have h2 : b - a ≠ 0 := by intro h; nlinarith
  simp only [splineH]
  exact div_ne_zero h2 h1

theorem splineIdx_left (a b : ℚ) (n : ℕ) : splineIdx a b n a = 0 := by
  simp [splineIdx]

theorem splineIdx_right (a b : ℚ) (n : ℕ) (hab : a < b) (hn : 2 ≤ n) :
    splineIdx a b n b = n - 2 := by
  have h1 : (n : ℚ) - 1 ≠ 0 := by
    have : (2 : ℚ) ≤ (n : ℚ) := by exact_mod_cast hn
    intro h; nlinarith
  have h2 : b - a ≠ 0 := by intro h; nlinarith
  have hq : (b - a) / splineH a b n = (n : ℚ) - 1 := by
    rw [splineH]
    field_simp
  rw [splineIdx, hq, ← nat_cast_sub_one n (by omega), Int.floor_natCast, Int.toNat_natCast]
  omega

theorem splineDt_right (a b : ℚ) (n : ℕ) (hab : a < b) (hn : 2 ≤ n) :
    b - (a + ((n - 2 : ℕ) : ℚ) * splineH a b n) = splineH a b n := by
  have h1 : (n : ℚ) - 1 ≠ 0 := by
    have : (2 : ℚ) ≤ (n : ℚ) := by exact_mod_cast hn
    intro h; nlinarith
  have hcast : ((n - 2 : ℕ) : ℚ) = (n : ℚ) - 2 := by
    push_cast [Nat.cast_sub hn]
    ring
  have hba : b - a = ((n : ℚ) - 1) * splineH a b n := by
    rw [splineH]
    field_simp
  rw [hcast]
  nlinarith [hba]

/-- At the left end of the knot range the spline reproduces the first data
value exactly (for all-finite data). -/
theorem splineEval_left (a b : ℚ) (n : ℕ) (hab : a < b) (hn : 2 ≤ n)
    (zs : List ℚ) (hz : zs.length = n) :
    splineEval a b n (zs.map some) a = some (zs.getD 0 0) := by
  have hys : (zs.map some).length = n := by simp [hz]
  have hall : ∀ y ∈ zs.map some, y.isSome := by
    intro y hy
    obtain ⟨z, _, rfl⟩ := List.mem_map.mp hy
    rfl
  have hcs_len : (splineC (splineH a b n) (zs.map some)).length = n := by
    rw [splineC_length _ _ (by omega)]; exact hys
  have hcs_all := splineC_allSome (splineH a b n) (zs.map some) hall
  obtain ⟨g1, hg1⟩ := getD_eq_some _ 1 hcs_all (by omega)
  have hy0 : (zs.map some).getD 0 none = some (zs.getD 0 0) :=
    getD_map_some zs 0 (by omega)
  have hy1 : (zs.map some).getD 1 none = some (zs.getD 1 0) :=
    getD_map_some zs 1 (by omega)
  rw [splineEval, splineIdx_left]
  rw [hy0, hy1, splineC_getD_zero, hg1]
  push_cast
  rw [splineB, splineD, splineCombine]
  simp only [fadd_some, fsub_some, fsmul_some, fdivq_some]
  ring_nf

/-- At the right end of the knot range the spline reproduces the last data
value exactly (for all-finite data): the coefficient construction cancels
independently of the solved second derivatives. -/
theorem splineEval_right (a b : ℚ) (n : ℕ) (hab : a < b) (hn : 2 ≤ n)
    (zs : List ℚ) (hz : zs.length = n) :
    splineEval a b n (zs.map some) b = some (zs.getD (n - 1) 0) := by
  have hys : (zs.map some).length = n := by simp [hz]
  have hall : ∀ y ∈ zs.map some, y.isSome := by
    intro y hy
    obtain ⟨z, _, rfl⟩ := List.mem_map.mp hy
    rfl
  have hcs_len : (splineC (splineH a b n) (zs.map some)).length = n := by
    rw [splineC_length _ _ (by omega)]; exact hys
  have hcs_all := splineC_allSome (splineH a b n) (zs.map some) hall
  obtain ⟨g0, hg0⟩ := getD_eq_some _ (n - 2) hcs_all (by omega)
  obtain ⟨g1, hg1⟩ := getD_eq_some _ (n - 2 + 1) hcs_all (by omega)
  have hy0 : (zs.map some).getD (n - 2) none = some (zs.getD (n - 2) 0) :=
    getD_map_some zs (n - 2) (by omega)
  have hy1 : (zs.map some).getD (n - 2 + 1) none = some (zs.getD (n - 2 + 1) 0) :=
    getD_map_some zs (n - 2 + 1) (by omega)
  have hidx : n - 2 + 1 = n - 1 := by omega
  have hne := splineH_ne_zero a b n hab hn
  rw [splineEval, splineIdx_right a b n hab hn]
  rw [hy0, hy1, hg0, hg1, splineDt_right a b n hab hn]
  rw [splineB, splineD, splineCombine]
  simp only [fadd_some, fsub_some, fsmul_some, fdivq_some, hidx]
  congr 1
  field_simp
  ring

/-! ### `interp1d` and `callback` case analysis -/

theorem interp1d_mismatch (x : List ℚ) (y : List FQ) (h : y.length ≠ x.length) :
    interp1d x y = .error "x and y arrays must be equal in length along interpolation axis" := by
  simp [interp1d, h]

theorem interp1d_ok (x : List ℚ) (y : List FQ) (hlen : y.length = x.length)
    (h4 : 4 ≤ x.length) :
    interp1d x y = .ok ⟨x.headD 0, x.getLastD 0, x.length, y⟩ := by
  simp [interp1d, hlen, Nat.not_lt.mpr h4]

theorem callback_mismatch (s : PState) (w : List FQ) (h : w.length ≠ s.x1.length) :
    callback s w = (s, .error "x and y arrays must be equal in length along interpolation axis") := by
  rw [callback, interp1d_mismatch s.x1 w h]

theorem callback_skip (s : PState) (w : List FQ) (hlen : w.length = s.x1.length)
    (hbig : 256 ≤ w.length) :
    callback s w = ({ s with interpolator := some (mkItp s w) }, .ok false) := by
  rw [callback, interp1d_ok s.x1 w hlen (by omega)]
  simp only [mkItp]
  rw [if_neg (by omega)]

theorem callback_fill (s : PState) (w : List FQ) (hg : GoodSweep s w)
    (hline : s.line ≤ 254) :
    callback s w =
      ({ s with interpolator := some (mkItp s w),
                A := s.A.set s.line (rowOf s w),
                line := s.line + 1 }, .ok true) := by
  obtain ⟨hlen, h4, hsmall⟩ := hg
  rw [callback, interp1d_ok s.x1 w hlen (by omega)]
  simp only [mkItp, rowOf, evalInterp]
  rw [if_pos hsmall, if_neg (by omega)]

theorem callback_wrap (s : PState) (w : List FQ) (hg : GoodSweep s w)
    (hline : 254 < s.line) :
    callback s w =
      ({ s with interpolator := some (mkItp s w),
                A := npRoll (s.A.set s.line (rowOf s w)) }, .ok true) := by
  obtain ⟨hlen, h4, hsmall⟩ := hg
  rw [callback, interp1d_ok s.x1 w hlen (by omega)]
  simp only [mkItp, rowOf, evalInterp]
  rw [if_pos hsmall, if_pos (by omega)]

theorem callback_frame (s : PState) (w : List FQ) :
    (callback s w).1.startFreq = s.startFreq ∧ (callback s w).1.endFreq = s.endFreq ∧
      (callback s w).1.x1 = s.x1 ∧ (callback s w).1.x2 = s.x2 := by
  rw [callback]
  cases interp1d s.x1 w with
  | error e => exact ⟨rfl, rfl, rfl, rfl⟩
  | ok itp =>
      by_cases h1 : w.length < 256
      · by_cases h2 : 254 < s.line
        · simp [h1, h2]
        · simp [h1, h2]
      · simp [h1]

/-! ### Shape of the buffer and the wrap rotation -/

theorem chunkRows_flatten :
    ∀ rows : List (List FQ), (∀ r ∈ rows, r.length = 256) →
      chunkRows rows.length rows.flatten = rows := by
  intro rows
  induction rows with
  | nil => intro _; rfl
  | cons r rest ih =>
      intro hall
      have hr : r.length = 256 := hall r (by simp)
      simp only [List.length_cons, List.flatten_cons, chunkRows]
      rw [← hr, List.take_left, List.drop_left]
      rw [ih (fun x hx => hall x (List.mem_cons_of_mem _ hx))]

theorem flatten_length_256 (A : List (List FQ)) (h : WellShaped A) :
    A.flatten.length = 65536 := by
  obtain ⟨hlen, hrows⟩ := h
  rw [List.length_flatten]
  have hmap : A.map List.length = List.replicate A.length 256 :=
    List.map_eq_replicate_iff.mpr (fun r hr => hrows r hr)
  rw [hmap, hlen, List.sum_replicate]
  rfl

theorem npRoll_eq_rotateRow (A : List (List FQ)) (h : WellShaped A) :
    npRoll A = A.tail ++ [A.headD []] := by
  obtain ⟨hlen, hrows⟩ := h
  cases A with
  | nil => simp at hlen
  | cons r rest =>
      have hr : r.length = 256 := hrows r (by simp)
      have hrest : ∀ x ∈ rest, x.length = 256 :=
        fun x hx => hrows x (List.mem_cons_of_mem _ hx)
      have hflat : (r :: rest).flatten.length = 65536 :=
        flatten_length_256 _ ⟨hlen, hrows⟩
      rw [npRoll, List.rotate_eq_drop_append_take (by omega)]
      simp only [List.flatten_cons]
      rw [← hr, List.take_left, List.drop_left, hr]
      have hfl : (rest ++ [r]).flatten = rest.flatten ++ r := by
        rw [List.flatten_append]
        simp
      rw [← hfl]
      have hshape : ∀ x ∈ rest ++ [r], x.length = 256 := by
        intro x hx
        rcases List.mem_append.mp hx with hx | hx
        · exact hrest x hx
        · rw [List.mem_singleton.mp hx]; exact hr
      have hcount : (rest ++ [r]).length = 256 := by
        simp only [List.length_append, List.length_singleton]
        simp only [List.length_cons] at hlen
        omega
      rw [← hcount, chunkRows_flatten _ hshape]
      simp

theorem mem_set_cases {α : Type} (l : List α) (i : ℕ) (x y : α) (h : y ∈ l.set i x) :
    y ∈ l ∨ y = x :=
  List.mem_or_eq_of_mem_set h

theorem WellShaped_set (A : List (List FQ)) (i : ℕ) (row : List FQ)
    (hA : WellShaped A) (hrow : row.length = 256) : WellShaped (A.set i row) := by
  obtain ⟨hlen, hrows⟩ := hA
  refine ⟨by rw [List.length_set]; exact hlen, ?_⟩
  intro r hr
  rcases mem_set_cases A i row r hr with hr | hr
  · exact hrows r hr
  · rw [hr]; exact hrow

theorem WellShaped_npRoll (A : List (List FQ)) (hA : WellShaped A) :
    WellShaped (npRoll A) := by
  obtain ⟨hlen, hrows⟩ := hA
  rw [npRoll_eq_rotateRow A ⟨hlen, hrows⟩]
  constructor
  · simp only [List.length_append, List.length_tail, List.length_singleton, hlen]
  · intro r hr
    rcases List.mem_append.mp hr with hr | hr
    · exact hrows r (List.mem_of_mem_tail hr)
    · rw [List.mem_singleton.mp hr]
      cases A with
      | nil => simp at hlen
      | cons x rest => exact hrows x (by simp)

/-! ### Run-level helpers -/

theorem runSweeps_append (s : PState) (l1 l2 : List (List FQ)) :
    runSweeps s (l1 ++ l2) =
      match runSweeps s l1 with
      | .ok s1 => runSweeps s1 l2
      | .error e => .error e := by
  induction l1 generalizing s with
  | nil => rfl
  | cons w ws ih =>
      simp only [List.cons_append, runSweeps]
      cases hcb : callback s w with
      | mk s1 r =>
          cases r with
          | ok b => exact ih s1
          | error e => rfl

theorem rowOf_congr (s t : PState) (hx1 : s.x1 = t.x1) (hx2 : s.x2 = t.x2) (w : List FQ) :
    rowOf s w = rowOf t w := by
  rw [rowOf, rowOf, mkItp, mkItp, hx1, hx2]

theorem rowOf_length (s : PState) (w : List FQ) (hx2 : s.x2.length = 256) :
    (rowOf s w).length = 256 := by
  rw [rowOf, List.length_map, hx2]

theorem GoodSweep_congr (s t : PState) (hx1 : s.x1 = t.x1) (w : List FQ) :
    GoodSweep s w ↔ GoodSweep t w := by
  rw [GoodSweep, GoodSweep, hx1]

/-- `callback` never moves the cursor outside `[0, 256)`. -/
theorem callback_line_bound (s : PState) (w : List FQ) (h : s.line ≤ 255) :
    (callback s w).1.line ≤ 255 := by
  rw [callback]
  cases interp1d s.x1 w with
  | error e => exact h
  | ok itp =>
      by_cases h1 : w.length < 256
      · by_cases h2 : 254 < s.line
        · simp [h1, h2, h]
        · simp only [h1, if_true, if_neg h2]
          simpa using by omega
      · simpa [h1] using h

/-- Cursor bound along any run. -/
theorem runSweeps_line_bound (ws : List (List FQ)) :
    ∀ s : PState, s.line ≤ 255 → ∀ s1, runSweeps s ws = .ok s1 → s1.line ≤ 255 := by
  induction ws with
  | nil =>
      intro s hs s1 hrun
      rw [runSweeps] at hrun
      cases hrun
      exact hs
  | cons w rest ih =>
      intro s hs s1 hrun
      rw [runSweeps] at hrun
      cases hcb : callback s w with
      | mk s2 r =>
          rw [hcb] at hrun
          cases r with
          | ok b =>
              have h2 : s2.line ≤ 255 := by
                have := callback_line_bound s w hs
                rw [hcb] at this
                exact this
              exact ih s2 h2 s1 hrun
          | error e => cases hrun

/-- `callback` preserves the dense 256×256 shape of the buffer. -/
theorem callback_shape (s : PState) (w : List FQ) (hA : WellShaped s.A)
    (hx2 : s.x2.length = 256) : WellShaped (callback s w).1.A := by
  rw [callback]
  cases hitp : interp1d s.x1 w with
  | error e => exact hA
  | ok itp =>
      have hdata : (s.x2.map (evalInterp itp)).length = 256 := by
        rw [List.length_map]; exact hx2
      by_cases h1 : w.length < 256
      · by_cases h2 : 254 < s.line
        · simp only [h1, if_true, if_pos h2]
          exact WellShaped_npRoll _ (WellShaped_set _ _ _ hA hdata)
        · simp only [h1, if_true, if_neg h2]
          exact WellShaped_set _ _ _ hA hdata
      · simpa [h1] using hA

theorem callback_x2 (s : PState) (w : List FQ) : (callback s w).1.x2 = s.x2 :=
  (callback_frame s w).2.2.2

theorem callback_x1 (s : PState) (w : List FQ) : (callback s w).1.x1 = s.x1 :=
  (callback_frame s w).2.2.1

/-- Shape of the buffer along any run. -/
theorem runSweeps_shape (ws : List (List FQ)) :
    ∀ s : PState, WellShaped s.A → s.x2.length = 256 →
      ∀ s1, runSweeps s ws = .ok s1 → WellShaped s1.A := by
  induction ws with
  | nil =>
      intro s hA _ s1 hrun
      rw [runSweeps] at hrun
      cases hrun
      exact hA
  | cons w rest ih =>
      intro s hA hx2 s1 hrun
      rw [runSweeps] at hrun
      cases hcb : callback s w with
      | mk s2 r =>
          rw [hcb] at hrun
          cases r with
          | ok b =>
              have h2A : WellShaped s2.A := by
                have := callback_shape s w hA hx2
                rw [hcb] at this
                exact this
              have h2x : s2.x2.length = 256 := by
                have := callback_x2 s w
                rw [hcb] at this
                rw [this]
                exact hx2
              exact ih s2 h2A h2x s1 hrun
          | error e => cases hrun

/-! ### Small list bookkeeping -/

theorem set_append_length {α : Type} (l1 l2 : List α) (x : α) :
    (l1 ++ l2).set l1.length x = l1 ++ l2.set 0 x := by
  induction l1 with
  | nil => rfl
  | cons y t ih => simp only [List.cons_append, List.length_cons, List.set_cons_succ, ih]

theorem tail_append_of_ne_nil {α : Type} (l1 l2 : List α) (h : l1 ≠ []) :
    (l1 ++ l2).tail = l1.tail ++ l2 := by
  cases l1 with
  | nil => exact absurd rfl h
  | cons x t => rfl

theorem getD_append_left {α : Type} (l1 l2 : List α) (i : ℕ) (d : α) (h : i < l1.length) :
    (l1 ++ l2).getD i d = l1.getD i d := by
  rw [List.getD_eq_getElem?_getD, List.getD_eq_getElem?_getD, List.getElem?_append, if_pos h]

theorem getD_append_right_self {α : Type} (l1 l2 : List α) (d : α) :
    (l1 ++ l2).getD l1.length d = l2.getD 0 d := by
  rw [List.getD_eq_getElem?_getD, List.getD_eq_getElem?_getD,
    List.getElem?_append_right (Nat.le_refl _), Nat.sub_self]

theorem getD_drop {α : Type} (l : List α) (i j : ℕ) (d : α) :
    (l.drop i).getD j d = l.getD (i + j) d := by
  rw [List.getD_eq_getElem?_getD, List.getD_eq_getElem?_getD, List.getElem?_drop]

theorem headD_eq_getD {α : Type} (l : List α) (d : α) : l.headD d = l.getD 0 d := by
  cases l <;> rfl

theorem getD_map_row (f : List FQ → List FQ) (l : List (List FQ)) (i : ℕ)
    (hi : i < l.length) :
    (l.map f).getD i [] = f (l.getD i []) := by
  simp only [List.getD_eq_getElem?_getD, List.getElem?_map]
  rw [List.getElem?_eq_getElem hi]
  simp

theorem runSweeps_append_ok (s : PState) (l1 l2 : List (List FQ)) (s1 : PState)
    (h : runSweeps s l1 = .ok s1) : runSweeps s (l1 ++ l2) = runSweeps s1 l2 := by
  rw [runSweeps_append, h]

theorem runSweeps_one (s : PState) (w : List FQ) (s2 : PState) (b : Bool)
    (h : callback s w = (s2, .ok b)) : runSweeps s [w] = .ok s2 := by
  rw [runSweeps, h]
  rfl

theorem set_append_at {α : Type} (l1 l2 : List α) (i : ℕ) (x : α) (h : i = l1.length) :
    (l1 ++ l2).set i x = l1 ++ l2.set 0 x := by
  subst h
  exact set_append_length l1 l2 x

/-- Full characterisation of a run of valid sweeps from a fresh buffer:
the configuration fields are untouched, the cursor is `min T 255`, and the
buffer contents are `expectedA`. -/
theorem runSweeps_char (s0 : PState) (h0A : s0.A = List.replicate 256 sentinelRow)
    (h0l : s0.line = 0) (hx2len : s0.x2.length = 256) :
    ∀ ws : List (List FQ), AllGood s0 ws →
      ∃ s1, runSweeps s0 ws = .ok s1 ∧
        s1.startFreq = s0.startFreq ∧ s1.endFreq = s0.endFreq ∧
        s1.x1 = s0.x1 ∧ s1.x2 = s0.x2 ∧
        s1.line = min ws.length 255 ∧
        s1.A = expectedA s0 ws := by
  intro ws
  induction ws using List.reverseRecOn with
  | nil =>
      intro _
      refine ⟨s0, rfl, rfl, rfl, rfl, rfl, ?_, ?_⟩
      · rw [h0l]; rfl
      · rw [expectedA, if_pos (by simp)]
        simpa using h0A
  | append_singleton ws w ih =>
      intro hgall
      have hgws : AllGood s0 ws := fun u hu => hgall u (List.mem_append_left _ hu)
      have hgw : GoodSweep s0 w := hgall w (List.mem_append_right _ (by simp))
      obtain ⟨s1, hrun, hsf, hef, hx1, hx2, hline, hA⟩ := ih hgws
      have hgw1 : GoodSweep s1 w := (GoodSweep_congr s1 s0 hx1 w).mpr hgw
      have hrow : rowOf s1 w = rowOf s0 w := rowOf_congr s1 s0 hx1 hx2 w
      have hrowlen : ∀ u : List FQ, (rowOf s0 u).length = 256 :=
        fun u => rowOf_length s0 u hx2len
      have hok : (callback s1 w).2 = .ok true := by
        by_cases h : s1.line ≤ 254
        · rw [callback_fill s1 w hgw1 h]
        · rw [callback_wrap s1 w hgw1 (by omega)]
      have hpair : callback s1 w = ((callback s1 w).1, .ok true) := by
        rw [← hok]
      refine ⟨(callback s1 w).1, ?_, (callback_frame s1 w).1.trans hsf,
        (callback_frame s1 w).2.1.trans hef, (callback_frame s1 w).2.2.1.trans hx1,
        (callback_frame s1 w).2.2.2.trans hx2, ?_, ?_⟩
      · rw [runSweeps_append_ok s0 ws [w] s1 hrun]
        exact runSweeps_one s1 w _ true hpair
      · -- the cursor after one more sweep
        by_cases hk254 : ws.length ≤ 254
        · rw [callback_fill s1 w hgw1 (by omega)]
          show s1.line + 1 = min (ws ++ [w]).length 255
          simp only [List.length_append, List.length_singleton]
          omega
        · rw [callback_wrap s1 w hgw1 (by omega)]
          show s1.line = min (ws ++ [w]).length 255
          simp only [List.length_append, List.length_singleton]
          omega
      · -- the buffer after one more sweep
        by_cases hk254 : ws.length ≤ 254
        · -- filling step: plain write + increment
          have hlk : s1.line = ws.length := by omega
          rw [callback_fill s1 w hgw1 (by omega)]
          show s1.A.set s1.line (rowOf s1 w) = expectedA s0 (ws ++ [w])
          rw [hrow, hlk, hA, expectedA, if_pos (by omega)]
          rw [set_append_at (ws.map (rowOf s0)) _ ws.length (rowOf s0 w)
            (List.length_map ws (rowOf s0)).symm]
          have h1 : 256 - ws.length = (255 - ws.length) + 1 := by omega
          rw [h1, List.replicate_succ, List.set_cons_zero]
          rw [expectedA, if_pos (by simp only [List.length_append, List.length_singleton]; omega)]
          have h2 : 256 - (ws ++ [w]).length = 255 - ws.length := by
            simp only [List.length_append, List.length_singleton]
            omega
          rw [h2, List.map_append]
          simp [List.append_assoc]
        · by_cases hk255 : ws.length = 255
          · -- first wrap: the sentinel tail row is overwritten, then the roll
            have hlk : s1.line = 255 := by omega
            rw [callback_wrap s1 w hgw1 (by omega)]
            show npRoll (s1.A.set s1.line (rowOf s1 w)) = expectedA s0 (ws ++ [w])
            rw [hrow, hlk, hA, expectedA, if_pos (by omega)]
            have hml : (ws.map (rowOf s0)).length = 255 := by
              rw [List.length_map, hk255]
            rw [set_append_at (ws.map (rowOf s0)) _ 255 (rowOf s0 w) hml.symm]
            have h1 : 256 - ws.length = 1 := by omega
            rw [h1, List.replicate_one, List.set_cons_zero]
            have hshape : WellShaped (ws.map (rowOf s0) ++ [rowOf s0 w]) := by
              constructor
              · simp [hk255]
              · intro r hr
                rcases List.mem_append.mp hr with hr | hr
                · obtain ⟨u, _, rfl⟩ := List.mem_map.mp hr
                  exact hrowlen u
                · rw [List.mem_singleton.mp hr]
                  exact hrowlen w
            rw [npRoll_eq_rotateRow _ hshape]
            have hne : ws.map (rowOf s0) ≠ [] := by
              intro hcon
              have := congrArg List.length hcon
              rw [hml] at this
              simp at this
            rw [tail_append_of_ne_nil _ _ hne]
            have htl : (ws.map (rowOf s0)).tail = (ws.drop 1).map (rowOf s0) := by
              rw [← List.drop_one, ← List.map_drop]
            have hhd : (ws.map (rowOf s0) ++ [rowOf s0 w]).headD [] =
                rowOf s0 (ws.getD 0 []) := by
              rw [headD_eq_getD, getD_append_left _ _ 0 [] (by omega),
                getD_map_row _ _ 0 (by omega)]
            rw [htl, hhd, expectedA,
              if_neg (by simp only [List.length_append, List.length_singleton]; omega)]
            have hd1 : (ws ++ [w]).length - 255 = 1 := by
              simp only [List.length_append, List.length_singleton]
              omega
            have hd2 : (ws ++ [w]).length - 256 = 0 := by
              simp only [List.length_append, List.length_singleton]
              omega
            rw [hd1, hd2, List.drop_append_of_le_length (by omega),
              getD_append_left _ _ 0 [] (by omega)]
            simp [List.map_append, List.append_assoc]
          · -- steady-state wrap: cursor pinned, rotated window
            have hkge : 256 ≤ ws.length := by omega
            have hlk : s1.line = 255 := by omega
            rw [callback_wrap s1 w hgw1 (by omega)]
            show npRoll (s1.A.set s1.line (rowOf s1 w)) = expectedA s0 (ws ++ [w])
            rw [hrow, hlk, hA, expectedA, if_neg (by omega)]
            have hdl : (ws.drop (ws.length - 255)).length = 255 := by
              rw [List.length_drop]
              omega
            have hml : ((ws.drop (ws.length - 255)).map (rowOf s0)).length = 255 := by
              rw [List.length_map, hdl]
            rw [set_append_at _ _ 255 (rowOf s0 w) hml.symm, List.set_cons_zero]
            have hshape : WellShaped
                ((ws.drop (ws.length - 255)).map (rowOf s0) ++ [rowOf s0 w]) := by
              constructor
              · simp only [List.length_append, List.length_singleton, hml]
              · intro r hr
                rcases List.mem_append.mp hr with hr | hr
                · obtain ⟨u, _, rfl⟩ := List.mem_map.mp hr
                  exact hrowlen u
                · rw [List.mem_singleton.mp hr]
                  exact hrowlen w
            rw [npRoll_eq_rotateRow _ hshape]
            have hne : (ws.drop (ws.length - 255)).map (rowOf s0) ≠ [] := by
              intro hcon
              have := congrArg List.length hcon
              rw [hml] at this
              simp at this
            rw [tail_append_of_ne_nil _ _ hne]
            have htl : ((ws.drop (ws.length - 255)).map (rowOf s0)).tail =
                (ws.drop (ws.length - 254)).map (rowOf s0) := by
              rw [← List.drop_one, ← List.map_drop, List.drop_drop]
              have h3 : ws.length - 255 + 1 = ws.length - 254 := by omega
              rw [h3]
            have hhd : ((ws.drop (ws.length - 255)).map (rowOf s0) ++ [rowOf s0 w]).headD [] =
                rowOf s0 (ws.getD (ws.length - 255) []) := by
              rw [headD_eq_getD, getD_append_left _ _ 0 [] (by omega),
                getD_map_row _ _ 0 (by omega), getD_drop]
              norm_num
            rw [htl, hhd, expectedA,
              if_neg (by simp only [List.length_append, List.length_singleton]; omega)]
            have hd1 : (ws ++ [w]).length - 255 = ws.length - 254 := by
              simp only [List.length_append, List.length_singleton]
              omega
            have hd2 : (ws ++ [w]).length - 256 = ws.length - 255 := by
              simp only [List.length_append, List.length_singleton]
              omega
            rw [hd1, hd2, List.drop_append_of_le_length (by omega),
              getD_append_left _ _ (ws.length - 255) [] (by omega)]
            simp [List.map_append, List.append_assoc]

/-! ### Projections of the characterised run -/

theorem runSweeps_props (s0 : PState) (h0A : s0.A = List.replicate 256 sentinelRow)
    (h0l : s0.line = 0) (hx2len : s0.x2.length = 256)
    (ws : List (List FQ)) (hg : AllGood s0 ws) :
    isOkRun (runSweeps s0 ws) = true ∧
    lineOf (runSweeps s0 ws) = min ws.length 255 ∧
    rowsOf (runSweeps s0 ws) = expectedA s0 ws := by
  obtain ⟨s1, hrun, _, _, _, _, hline, hA⟩ := runSweeps_char s0 h0A h0l hx2len ws hg
  rw [hrun]
  exact ⟨rfl, hline, hA⟩

theorem expectedA_getD_full (s0 : PState) (ws : List (List FQ)) (hlen : 256 ≤ ws.length)
    (j : ℕ) (hj : j < 255) :
    (expectedA s0 ws).getD j [] = rowOf s0 (ws.getD (ws.length - 255 + j) []) := by
  rw [expectedA, if_neg (by omega)]
  rw [getD_append_left _ _ j [] (by rw [List.length_map, List.length_drop]; omega)]
  rw [getD_map_row _ _ j (by rw [List.length_drop]; omega), getD_drop]

theorem expectedA_getD_last_full (s0 : PState) (ws : List (List FQ))
    (hlen : 256 ≤ ws.length) :
    (expectedA s0 ws).getD 255 [] = rowOf s0 (ws.getD (ws.length - 256) []) := by
  rw [expectedA, if_neg (by omega)]
  have hml : ((ws.drop (ws.length - 255)).map (rowOf s0)).length = 255 := by
    rw [List.length_map, List.length_drop]
    omega
  have h := getD_append_right_self ((ws.drop (ws.length - 255)).map (rowOf s0))
    [rowOf s0 (ws.getD (ws.length - 256) [])] []
  rw [hml] at h
  rw [h]
  rfl

theorem expectedA_getD_last_fill (s0 : PState) (ws : List (List FQ))
    (hlen : ws.length = 255) :
    (expectedA s0 ws).getD 255 [] = sentinelRow := by
  rw [expectedA, if_pos (by omega)]
  have hml : (ws.map (rowOf s0)).length = 255 := by rw [List.length_map, hlen]
  have h := getD_append_right_self (ws.map (rowOf s0))
    (List.replicate (256 - ws.length) sentinelRow) []
  rw [hml] at h
  rw [h, hlen]
  rfl

/-! ### Boundary values of a resampled row -/

theorem rowOf_getD_zero (s : PState) (a b : ℚ) (n : ℕ) (zs : List ℚ)
    (hx1 : s.x1 = linspace a b n) (hx2 : s.x2 = linspace a b 256)
    (hab : a < b) (hn : 2 ≤ n) (hz : zs.length = n) :
    (rowOf s (zs.map some)).getD 0 none = some (zs.getD 0 0) := by
  rw [rowOf, hx2, getD_map_fn _ _ 0 (by rw [linspace_length]; omega), linspace_getD_zero _ _ _ (by omega)]
  rw [evalInterp, mkItp, hx1, linspace_headD _ _ _ (by omega), linspace_getLastD _ _ _ hn,
    linspace_length]
  exact splineEval_left a b n hab hn zs hz

theorem rowOf_getD_last (s : PState) (a b : ℚ) (n : ℕ) (zs : List ℚ)
    (hx1 : s.x1 = linspace a b n) (hx2 : s.x2 = linspace a b 256)
    (hab : a < b) (hn : 2 ≤ n) (hz : zs.length = n) :
    (rowOf s (zs.map some)).getD 255 none = some (zs.getD (n - 1) 0) := by
  have hb : (linspace a b 256).getD 255 0 = b := by
    have h := linspace_getLastD a b 256 (by omega)
    rw [getLastD_eq_getD, linspace_length] at h
    exact h
  rw [rowOf, hx2, getD_map_fn _ _ 255 (by rw [linspace_length]; omega), hb]
  rw [evalInterp, mkItp, hx1, linspace_headD _ _ _ (by omega), linspace_getLastD _ _ _ hn,
    linspace_length]
  exact splineEval_right a b n hab hn zs hz

/-- The first element of the buffer is untouched by a write at row 255. -/
theorem getD_set_pos_zero {α : Type} (l : List α) (i : ℕ) (x d : α) (hi : i ≠ 0) :
    (l.set i x).getD 0 d = l.getD 0 d := by
  cases l with
  | nil => rfl
  | cons y t =>
      cases i with
      | zero => exact absurd rfl hi
      | succ j => rfl

theorem wellShaped_fresh : WellShaped (List.replicate 256 sentinelRow) := by
  constructor
  · rw [List.length_replicate]
  · intro r hr
    rw [List.eq_of_mem_replicate hr, sentinelRow, List.length_replicate]

/-! ### Concrete fixtures -/

/-- The object built by `main` with the default options
(`-s 554000000 -e 570000000 -d 2000000`, giving nsteps = 9). -/
def s0d : PState := initState 554000000 570000000 2000000

/-- An object configured so that the source axis has exactly 256 points
(start 0, end 255, step 1). -/
def s0wide : PState := initState 0 255 1

/-- A 9-sample sweep of constant power `q`. -/
def sweep9 (q : ℚ) : List FQ := List.replicate 9 (some q)

/-- 300 consecutive valid sweeps; sweep number `k+1` carries constant power
`k`, so distinct sweeps resample to distinct rows. -/
def ws300 : List (List FQ) := (List.range 300).map (fun k : ℕ => sweep9 (k : ℚ))

/-- A correctly sized sweep whose first sample is non-finite. -/
def nanSweep : List FQ := none :: List.replicate 8 (some 0)

/-! ### Claim theorems -/

/-- C6: at construction the spectrogram buffer is a single 256×256 allocation
in which every entry is the sentinel floor value `-100` dBm and the write
cursor starts at row 0, so the first valid sweep's resampled row overwrites
row 0 (and moves the cursor to 1 with a `True` result). -/
theorem c6_initial_state (f1 f2 st : ℚ) (w : List FQ)
    (hg : GoodSweep (initState f1 f2 st) w) :
    (initState f1 f2 st).A = List.replicate 256 (List.replicate 256 (some (-100))) ∧
    (initState f1 f2 st).line = 0 ∧
    (callback (initState f1 f2 st) w).1.A =
      (initState f1 f2 st).A.set 0 (rowOf (initState f1 f2 st) w) ∧
    (callback (initState f1 f2 st) w).1.A.getD 0 [] = rowOf (initState f1 f2 st) w ∧
    (callback (initState f1 f2 st) w).2 = .ok true ∧
    (callback (initState f1 f2 st) w).1.line = 1 := by
  have hcb := callback_fill (initState f1 f2 st) w hg (Nat.zero_le 254)
  refine ⟨rfl, rfl, ?_, ?_, ?_, ?_⟩
  · rw [hcb]
    rfl
  · rw [hcb]
    rfl
  · rw [hcb]
  · rw [hcb]
    rfl

theorem c6_initial_state_witness :
    s0d.A = List.replicate 256 (List.replicate 256 (some (-100))) ∧
    s0d.line = 0 ∧
    (callback s0d (sweep9 (-50))).1.A = s0d.A.set 0 (rowOf s0d (sweep9 (-50))) ∧
    (callback s0d (sweep9 (-50))).1.A.getD 0 [] = rowOf s0d (sweep9 (-50)) ∧
    (callback s0d (sweep9 (-50))).2 = .ok true ∧
    (callback s0d (sweep9 (-50))).1.line = 1 :=
  c6_initial_state 554000000 570000000 2000000 (sweep9 (-50)) (by decide)

/-- C9 (implicit): every invocation of `callback` constructs the interpolator
from the sweep's data before the `N < 256` guard is evaluated: a sweep whose
length mismatches the configured source axis raises the `interp1d` exception
out of `callback` instead of returning the skip signal, for sweeps of any
length; and even a matching sweep that is merely skipped (`N ≥ 256`) has the
interpolator built and cached first. -/
theorem c9_interpolator_before_guard :
    (∀ (s : PState) (w : List FQ), w.length ≠ s.x1.length →
      callback s w =
        (s, .error "x and y arrays must be equal in length along interpolation axis")) ∧
    (∀ (s : PState) (w : List FQ), w.length = s.x1.length → 256 ≤ w.length →
      callback s w = ({ s with interpolator := some (mkItp s w) }, .ok false)) :=
  ⟨callback_mismatch, callback_skip⟩

theorem c9_interpolator_before_guard_witness :
    callback s0d (List.replicate 300 (some 0)) =
      (s0d, .error "x and y arrays must be equal in length along interpolation axis") ∧
    callback s0wide (List.replicate 256 (some 0)) =
      ({ s0wide with
          interpolator := some (mkItp s0wide (List.replicate 256 (some 0))) }, .ok false) :=
  ⟨c9_interpolator_before_guard.1 s0d _ (by decide),
   c9_interpolator_before_guard.2 s0wide _ (by decide) (by decide)⟩

/-- C2 (amended): a sweep with `N ≥ 256` samples is skipped — `callback`
returns `False` and leaves `A` and `line` unchanged — provided its length
matches the configured source axis; a coarse sweep whose length does not
match the axis makes the interpolator constructor raise instead (see the
counterexample). -/
theorem c2_skip_coarse (s : PState) (w : List FQ) (hbig : 256 ≤ w.length)
    (hlen : w.length = s.x1.length) :
    (callback s w).2 = .ok false ∧
    (callback s w).1.A = s.A ∧
    (callback s w).1.line = s.line := by
  rw [callback_skip s w hlen hbig]
  exact ⟨rfl, rfl, rfl⟩

theorem c2_skip_coarse_witness :
    (callback s0wide (List.replicate 256 (some 0))).2 = .ok false ∧
    (callback s0wide (List.replicate 256 (some 0))).1.A = s0wide.A ∧
    (callback s0wide (List.replicate 256 (some 0))).1.line = s0wide.line :=
  c2_skip_coarse s0wide (List.replicate 256 (some 0)) (by decide) (by decide)

theorem c2_skip_coarse_counterexample :
    (callback s0d (List.replicate 256 (some 0))).2 =
      .error "x and y arrays must be equal in length along interpolation axis" ∧
    (callback s0d (List.replicate 256 (some 0))).2 ≠ .ok false := by
  rw [callback_mismatch s0d _ (by decide)]
  exact ⟨rfl, by decide⟩

/-- C4 (amended): a sweep whose length differs from the configured axis is
rejected by the interpolator constructor before any resampling — an error
escapes `callback` and the whole state, buffer included, is unchanged.
Sweeps containing non-finite values are NOT rejected: any sweep of matching
valid length is resampled and written, returning `True`, regardless of its
contents. -/
theorem c4_malformed_sweeps :
    (∀ (s : PState) (w : List FQ), w.length ≠ s.x1.length →
      callback s w =
        (s, .error "x and y arrays must be equal in length along interpolation axis")) ∧
    (∀ (s : PState) (w : List FQ), GoodSweep s w → (callback s w).2 = .ok true) := by
  refine ⟨callback_mismatch, ?_⟩
  intro s w hg
  by_cases h : s.line ≤ 254
  · rw [callback_fill s w hg h]
  · rw [callback_wrap s w hg (by omega)]

theorem c4_malformed_sweeps_witness :
    callback s0d (List.replicate 5 (some 0)) =
      (s0d, .error "x and y arrays must be equal in length along interpolation axis") ∧
    (callback s0d nanSweep).2 = .ok true :=
  ⟨c4_malformed_sweeps.1 s0d _ (by decide),
   c4_malformed_sweeps.2 s0d nanSweep (by decide)⟩

theorem c4_malformed_sweeps_counterexample :
    (callback s0d nanSweep).2 = .ok true ∧
    ((callback s0d nanSweep).1.A.getD 0 []).getD 0 none = none ∧
    (s0d.A.getD 0 []).getD 0 none = some (-100) :=
  ⟨by decide, by decide, by decide⟩

/-- C7: the resampled row is a pure, deterministic function of the source
axis, the target axis and the sweep's sample values; `callback` never touches
the axes; and a skipped invocation changes nothing in the state except the
cached interpolating-function object. -/
theorem c7_resampler_pure :
    (∀ (s t : PState) (w : List FQ), s.x1 = t.x1 → s.x2 = t.x2 →
      rowOf s w = rowOf t w) ∧
    (∀ (s : PState) (w : List FQ),
      (callback s w).1.startFreq = s.startFreq ∧
      (callback s w).1.endFreq = s.endFreq ∧
      (callback s w).1.x1 = s.x1 ∧
      (callback s w).1.x2 = s.x2) ∧
    (∀ (s : PState) (w : List FQ), w.length = s.x1.length → 256 ≤ w.length →
      (callback s w).1 = { s with interpolator := some (mkItp s w) }) := by
  refine ⟨fun s t w hx1 hx2 => rowOf_congr s t hx1 hx2 w, callback_frame, ?_⟩
  intro s w hlen hbig
  rw [callback_skip s w hlen hbig]

theorem c7_resampler_pure_witness :
    rowOf { s0d with line := 7, A := [], interpolator := none } (sweep9 2) =
      rowOf s0d (sweep9 2) ∧
    (callback s0d (sweep9 2)).1.x1 = s0d.x1 ∧
    (callback s0wide (List.replicate 256 (some 0))).1 =
      { s0wide with interpolator := some (mkItp s0wide (List.replicate 256 (some 0))) } :=
  ⟨c7_resampler_pure.1 _ s0d (sweep9 2) rfl rfl,
   (c7_resampler_pure.2.1 s0d (sweep9 2)).2.2.1,
   c7_resampler_pure.2.2 s0wide _ (by decide) (by decide)⟩

/-- C5: for every valid sweep (finite data, `4 ≤ N < 256`, matching a source
axis `linspace a b N` with the target axis `linspace a b 256`), the resampled
row has exactly 256 values, its value at the first target frequency equals
the sweep's first power value exactly, and its value at the last target
frequency equals the sweep's last power value exactly. -/
theorem c5_resample_boundary (s : PState) (a b : ℚ) (n : ℕ) (zs : List ℚ)
    (hx1 : s.x1 = linspace a b n) (hx2 : s.x2 = linspace a b 256)
    (hab : a < b) (h4 : 4 ≤ n) (hsmall : n < 256) (hz : zs.length = n) :
    (rowOf s (zs.map some)).length = 256 ∧
    (rowOf s (zs.map some)).getD 0 none = some (zs.getD 0 0) ∧
    (rowOf s (zs.map some)).getD 255 none = some (zs.getD (n - 1) 0) := by
  refine ⟨?_, ?_, ?_⟩
  · rw [rowOf, List.length_map, hx2, linspace_length]
  · exact rowOf_getD_zero s a b n zs hx1 hx2 hab (by omega) hz
  · exact rowOf_getD_last s a b n zs hx1 hx2 hab (by omega) hz

theorem c5_resample_boundary_witness :
    (rowOf s0d (([-90, -85, -70, -60, -88, -92, -75, -65, -80] : List ℚ).map some)).length = 256 ∧
    (rowOf s0d (([-90, -85, -70, -60, -88, -92, -75, -65, -80] : List ℚ).map some)).getD 0 none =
      some (-90) ∧
    (rowOf s0d (([-90, -85, -70, -60, -88, -92, -75, -65, -80] : List ℚ).map some)).getD 255 none =
      some (-80) :=
  c5_resample_boundary s0d 554000000 570000000 9
    [-90, -85, -70, -60, -88, -92, -75, -65, -80]
    (by decide) rfl (by norm_num) (by norm_num) (by norm_num) (by decide)

/-- C8 (implicit): a wrap step (cursor at 255) is a cyclic rotation of the
just-written buffer by one row: afterwards every row `i < 255` holds what row
`i+1` held after the write, and row 255 holds the former row 0 — the oldest
row survives in the last row (where the pinned cursor will overwrite it on
the next valid sweep) rather than being dropped. -/
theorem c8_wrap_is_rotation (s : PState) (w : List FQ) (hline : s.line = 255)
    (hA : WellShaped s.A) (hx2 : s.x2.length = 256) (hg : GoodSweep s w) :
    (callback s w).2 = .ok true ∧
    (callback s w).1.A = npRoll (s.A.set 255 (rowOf s w)) ∧
    (∀ i : ℕ, i < 255 →
      (callback s w).1.A.getD i [] = (s.A.set 255 (rowOf s w)).getD (i + 1) []) ∧
    (callback s w).1.A.getD 255 [] = s.A.getD 0 [] ∧
    (callback s w).1.line = 255 := by
  have hcb := callback_wrap s w hg (by omega)
  have hset : WellShaped (s.A.set 255 (rowOf s w)) :=
    WellShaped_set _ _ _ hA (rowOf_length s w hx2)
  have hrot := npRoll_eq_rotateRow _ hset
  have hlenset : (s.A.set 255 (rowOf s w)).length = 256 := by
    rw [List.length_set]
    exact hA.1
  have htail_len : (s.A.set 255 (rowOf s w)).tail.length = 255 := by
    rw [List.length_tail, hlenset]
  refine ⟨by rw [hcb], ?_, ?_, ?_, ?_⟩
  · rw [hcb]
    show npRoll (s.A.set s.line (rowOf s w)) = _
    rw [hline]
  · intro i hi
    rw [hcb]
    show (npRoll (s.A.set s.line (rowOf s w))).getD i [] = _
    rw [hline, hrot]
    rw [getD_append_left _ _ i [] (by rw [htail_len]; omega)]
    rw [← List.drop_one, getD_drop]
    congr 1
    omega
  · rw [hcb]
    show (npRoll (s.A.set s.line (rowOf s w))).getD 255 [] = _
    rw [hline, hrot]
    have h := getD_append_right_self (s.A.set 255 (rowOf s w)).tail
      [(s.A.set 255 (rowOf s w)).headD []] []
    rw [htail_len] at h
    rw [h]
    show (s.A.set 255 (rowOf s w)).headD [] = _
    rw [headD_eq_getD, getD_set_pos_zero _ _ _ _ (by omega)]
  · rw [hcb]
    show s.line = 255
    exact hline

/-- The default object with its cursor moved to the wrap position. -/
def sWrap : PState := { s0d with line := 255 }

theorem c8_wrap_is_rotation_witness :
    (callback sWrap (sweep9 1)).2 = .ok true ∧
    (callback sWrap (sweep9 1)).1.A.getD 255 [] = sWrap.A.getD 0 [] ∧
    (callback sWrap (sweep9 1)).1.line = 255 := by
  have h := c8_wrap_is_rotation sWrap (sweep9 1) rfl wellShaped_fresh (by decide) (by decide)
  exact ⟨h.1, h.2.2.2.1, h.2.2.2.2⟩

/-- 255 consecutive valid constant sweeps. -/
def ws255 : List (List FQ) := List.replicate 255 (sweep9 0)

/-- 256 consecutive valid constant sweeps. -/
def ws256 : List (List FQ) := List.replicate 256 (sweep9 0)

/-- C3: the write cursor always lies in `[0, 256)`; after exactly 255 valid
sweeps it equals 255 with the buffer still filling (row 255 is still the
sentinel row); the 256th valid sweep triggers the wrap, and from then on the
cursor stays pinned at 255 while the buffer keeps scrolling (row 255 now
holds a resampled sweep that advances with every further sweep). -/
theorem c3_cursor_invariant (f1 f2 st : ℚ) (ws : List (List FQ)) :
    lineOf (runSweeps (initState f1 f2 st) ws) < 256 ∧
    (AllGood (initState f1 f2 st) ws → ws.length = 255 →
      lineOf (runSweeps (initState f1 f2 st) ws) = 255 ∧
      (rowsOf (runSweeps (initState f1 f2 st) ws)).getD 255 [] = sentinelRow) ∧
    (AllGood (initState f1 f2 st) ws → 256 ≤ ws.length →
      lineOf (runSweeps (initState f1 f2 st) ws) = 255 ∧
      (rowsOf (runSweeps (initState f1 f2 st) ws)).getD 255 [] =
        rowOf (initState f1 f2 st) (ws.getD (ws.length - 256) [])) := by
  refine ⟨?_, ?_, ?_⟩
  · cases hrun : runSweeps (initState f1 f2 st) ws with
    | error e => simp [lineOf]
    | ok s1 =>
        have hb := runSweeps_line_bound ws (initState f1 f2 st) (Nat.zero_le 255) s1 hrun
        simp only [lineOf]
        omega
  · intro hg hlen
    obtain ⟨hok, hline, hA⟩ :=
      runSweeps_props (initState f1 f2 st) rfl rfl (linspace_length f1 f2 256) ws hg
    constructor
    · rw [hline, hlen]
      exact min_self 255
    · rw [hA, expectedA_getD_last_fill _ _ hlen]
  · intro hg hlen
    obtain ⟨hok, hline, hA⟩ :=
      runSweeps_props (initState f1 f2 st) rfl rfl (linspace_length f1 f2 256) ws hg
    constructor
    · rw [hline]
      omega
    · rw [hA, expectedA_getD_last_full _ _ hlen]

theorem c3_cursor_invariant_witness :
    lineOf (runSweeps s0d ws255) < 256 ∧
    lineOf (runSweeps s0d ws255) = 255 ∧
    (rowsOf (runSweeps s0d ws255)).getD 255 [] = sentinelRow ∧
    lineOf (runSweeps s0d ws256) = 255 := by
  have h1 := c3_cursor_invariant 554000000 570000000 2000000 ws255
  have h2 := c3_cursor_invariant 554000000 570000000 2000000 ws256
  have g1 := h1.2.1 (by decide) (by decide)
  have g2 := h2.2.2 (by decide) (by decide)
  exact ⟨h1.1, g1.1, g1.2, g2.1⟩

/-- C10 (implicit): the buffer is a dense 256×256 array at construction and
after every run of `callback` invocations that finishes without an exception,
whether the individual steps wrote a row, wrapped, or skipped. -/
theorem c10_shape_preserved (f1 f2 st : ℚ) (ws : List (List FQ)) :
    WellShaped (initState f1 f2 st).A ∧
    (isOkRun (runSweeps (initState f1 f2 st) ws) = true →
      WellShaped (rowsOf (runSweeps (initState f1 f2 st) ws))) := by
  refine ⟨wellShaped_fresh, ?_⟩
  intro hok
  cases hrun : runSweeps (initState f1 f2 st) ws with
  | error e =>
      rw [hrun] at hok
      simp [isOkRun] at hok
  | ok s1 =>
      have hs := runSweeps_shape ws (initState f1 f2 st) wellShaped_fresh
        (linspace_length f1 f2 256) s1 hrun
      exact hs

theorem c10_shape_preserved_witness :
    WellShaped s0wide.A ∧
    WellShaped (rowsOf (runSweeps s0wide [List.replicate 256 (some 0)])) := by
  have h := c10_shape_preserved 0 255 1 [List.replicate 256 (some 0)]
  exact ⟨h.1, h.2 (by decide)⟩

/-- C1 (amended): after `T ≥ 256` consecutive valid sweeps the buffer holds
exactly the resampled rows of the last 256 sweeps, but cyclically rotated by
one: rows `0..254` hold sweeps `T-254..T` in time order and row 255 holds
sweep `T-255`, the oldest retained sweep (the in-order window with the oldest
at row 0 exists inside `callback` only between the row write and the roll,
which is when the image is drawn). -/
theorem c1_sliding_window (f1 f2 st : ℚ) (ws : List (List FQ))
    (hg : AllGood (initState f1 f2 st) ws) (hlen : 256 ≤ ws.length) :
    isOkRun (runSweeps (initState f1 f2 st) ws) = true ∧
    rowsOf (runSweeps (initState f1 f2 st) ws) =
      ((ws.drop (ws.length - 255)).map (rowOf (initState f1 f2 st))) ++
        [rowOf (initState f1 f2 st) (ws.getD (ws.length - 256) [])] := by
  obtain ⟨hok, _, hA⟩ :=
    runSweeps_props (initState f1 f2 st) rfl rfl (linspace_length f1 f2 256) ws hg
  refine ⟨hok, ?_⟩
  rw [hA, expectedA, if_neg (by omega)]

theorem c1_sliding_window_witness :
    isOkRun (runSweeps s0d ws256) = true ∧
    rowsOf (runSweeps s0d ws256) =
      ((ws256.drop (ws256.length - 255)).map (rowOf s0d)) ++
        [rowOf s0d (ws256.getD (ws256.length - 256) [])] :=
  c1_sliding_window 554000000 570000000 2000000 ws256 (by decide) (by decide)

theorem c1_sliding_window_counterexample :
    isOkRun (runSweeps s0d ws300) = true ∧
    (rowsOf (runSweeps s0d ws300)).getD 0 [] = rowOf s0d (sweep9 45) ∧
    (rowsOf (runSweeps s0d ws300)).getD 0 [] ≠ rowOf s0d (sweep9 44) := by
  obtain ⟨hok, _, hA⟩ := runSweeps_props s0d rfl rfl (linspace_length 554000000 570000000 256)
    ws300 (by decide)
  have hrow0 : (rowsOf (runSweeps s0d ws300)).getD 0 [] = rowOf s0d (sweep9 45) := by
    rw [hA, expectedA_getD_full s0d ws300 (by decide) 0 (by omega)]
    have hidx : ws300.length - 255 + 0 = 45 := by decide
    rw [hidx]
    have h45 : ws300.getD 45 [] = sweep9 45 := by decide
    rw [h45]
  have e1 : (rowOf s0d (sweep9 45)).getD 0 none = some 45 := by
    rw [show sweep9 (45 : ℚ) = (List.replicate 9 (45 : ℚ)).map some from by
      simp [sweep9, List.map_replicate]]
    exact rowOf_getD_zero s0d 554000000 570000000 9 (List.replicate 9 45)
      (by decide) rfl (by norm_num) (by norm_num) (by decide)
  have e2 : (rowOf s0d (sweep9 44)).getD 0 none = some 44 := by
    rw [show sweep9 (44 : ℚ) = (List.replicate 9 (44 : ℚ)).map some from by
      simp [sweep9, List.map_replicate]]
    exact rowOf_getD_zero s0d 554000000 570000000 9 (List.replicate 9 44)
      (by decide) rfl (by norm_num) (by norm_num) (by decide)
  refine ⟨hok, hrow0, ?_⟩
  rw [hrow0]
  intro heq
  rw [heq] at e1
  rw [e2] at e1
  exact absurd e1 (by decide)
